import Mathlib

/-!
Shallow embedding of `src/uuid.ts` (class `UniqueID` and its helpers).

Randomness and the clock are modelled by an explicit oracle record holding
the values that the platform primitives (`crypto.randomBytes`, `Math.random`,
`Date.getTime`) return during one call of `generate`.  JavaScript numbers
produced here are naturals small enough (< 10^21) that template-literal
rendering coincides with exact decimal notation, so `Nat.repr` models it.
`Number(s)` is only ever applied to (possibly empty) strings of decimal
digits, where it coincides with the exact decimal parse (`Number("") = 0`).
JavaScript string indices are UTF-16 positions; every string built here is
ASCII, so `List Char` positions agree with them.
-/

/-- The JS `length ? length : d` idiom on numbers: `0` is falsy, every other
integer (negative ones included) is truthy. -/
def lengthOrDefault (len : Option Int) (d : Int) : Int :=
  match len with
  | none => d
  | some n => if n = 0 then d else n

/-- `new Array(n)`: succeeds exactly on valid array lengths (integers in
`[0, 2^32)`), otherwise throws `RangeError: Invalid array length`. -/
def jsNewArraySize (n : Int) : Except String Nat :=
  if 0 ≤ n ∧ n < 4294967296 then .ok n.toNat else .error "Invalid array length"

/-- JS number-to-string coercion inside a template literal, for the natural
numbers produced by this program (all below 10^21, hence plain decimal). -/
def jsStrOfNat (n : Nat) : String :=
  Nat.repr n

/-- `s.substring(0, e)` for a natural `e` (clamped to the string length). -/
def strTake (s : String) (n : Nat) : String :=
  String.mk (s.data.take n)

/-- `s.substring(0, e)` where `e` may be `undefined` (JS: missing end index
means the whole string; a negative end index is clamped to `0`). -/
def jsSubstrOpt (s : String) (e : Option Int) : String :=
  match e with
  | none => s
  | some n => strTake s n.toNat

/-- `Number(s)` on the digit strings this program builds: the exact decimal
parse, with `Number("") = 0`. -/
def jsNumber (s : String) : Nat :=
  s.data.foldl (fun a c => a * 10 + (c.toNat - 48)) 0

/-- `s.charAt(i)`: the one-character string at index `i`, or `""` out of range. -/
def jsCharAt (s : String) (i : Nat) : String :=
  match s.data.get? i with
  | some c => String.mk [c]
  | none => ""

/-- The lowercase hex digit for a nibble, as used by `Buffer.toString("hex")`
(for `n < 16`, core's base-16 digit table coincides with Node's). -/
def hexDigitChar (n : Nat) : Char :=
  Nat.digitChar n

/-- Hex encoding of one byte (`b % 256` reflects the `Uint8Array` cell type):
two lowercase hex characters, high nibble first. -/
def hexByteChars (b : Nat) : List Char :=
  [hexDigitChar (b % 256 / 16), hexDigitChar (b % 256 % 16)]

/-- `HexRandomBytes(16)` = `crypto.randomBytes(16).toString("hex")`, applied to
the byte stream `bytes` supplied by the oracle: 16 bytes, 2 hex chars each. -/
def HexRandomBytes16 (bytes : Nat → Nat) : String :=
  String.mk ((List.range 16).flatMap fun i => hexByteChars (bytes i))

/-- One call's worth of platform randomness and clock readings, in the order
`generate` consumes them. -/
structure Oracle where
  /-- `RandomBits(1)[0]`, the secure random byte (reduced `% 256` at use). -/
  rndByte : Nat
  /-- The 16 bytes behind `HexRandomBytes(16)`. -/
  uuidBytes : Nat → Nat
  /-- `new Date().getTime()`, milliseconds since the epoch. -/
  timestamp : Nat
  /-- `Math.floor((Math.random() * 100000000) * 0x100000000)`. -/
  randomNum : Nat
  /-- `Math.floor(Math.random() * charsLength)` for each buffer slot `i`. -/
  bufDraw : Nat → Nat
  /-- `Math.floor(Math.random() * 1000000000)` (numeric mode only). -/
  numericR : Nat

/-- The constructor's `type` field: `"string"` or `"number"`. -/
inductive GenType where
  | string
  | number
deriving DecidableEq

/-- The `string | number` return type of `generate`. -/
inductive GenResult where
  | str (s : String)
  | num (n : Nat)
deriving DecidableEq

/-- The class's `ALPHANUMERIC` constant. -/
def ALPHANUMERIC : String :=
  "ABCDEFGHIJKLMNOPQRSTUVWXYZabcdefghijklmnopqrstuvwxyz0123456789"

/-- The `val` buffer fill loop: `val[i] = ALPHANUMERIC.charAt(floor(random * charsLength))`. -/
def valBuffer (o : Oracle) (valLen : Nat) : List String :=
  (List.range valLen).map fun i => jsCharAt ALPHANUMERIC (o.bufDraw i)

set_option linter.unusedVariables false in
/-- `UniqueID.generate`, with the constructor's (defaulted) `prefix` and `type`
fields passed explicitly (`pfx` is the `prefix` field; `prefix` is a Lean
keyword).  The only JS exception point is `new Array(length ? length : 8)`. -/
def UniqueID.generate (pfx : String) (ty : GenType) (o : Oracle) (len : Option Int) :
    Except String GenResult :=
  let rnd := o.rndByte % 256
  let timestamp := o.timestamp
  match jsNewArraySize (lengthOrDefault len 8) with
  | .error e => .error e
  | .ok valLen =>
    let randomNum := o.randomNum
    let uuid := HexRandomBytes16 o.uuidBytes
    let val := valBuffer o valLen
    match ty with
    | .string =>
      let unique :=
        if pfx ≠ "" then
          pfx ++ "_" ++ uuid ++ jsStrOfNat timestamp ++ jsStrOfNat randomNum ++ jsStrOfNat rnd
        else
          uuid ++ jsStrOfNat timestamp ++ jsStrOfNat randomNum ++ jsStrOfNat rnd
      .ok (.str (strTake unique (lengthOrDefault len 16).toNat))
    | .number =>
      let r := o.numericR
      let result := jsStrOfNat r ++ jsStrOfNat timestamp ++ jsStrOfNat randomNum ++ jsStrOfNat rnd
      .ok (.num (jsNumber (jsSubstrOpt result len)))

/-- The pre-truncation concatenation of text mode (`unique` in the source). -/
def textSource (pfx : String) (o : Oracle) : String :=
  if pfx ≠ "" then
    pfx ++ "_" ++ HexRandomBytes16 o.uuidBytes ++ jsStrOfNat o.timestamp
      ++ jsStrOfNat o.randomNum ++ jsStrOfNat (o.rndByte % 256)
  else
    HexRandomBytes16 o.uuidBytes ++ jsStrOfNat o.timestamp
      ++ jsStrOfNat o.randomNum ++ jsStrOfNat (o.rndByte % 256)

/-- The pre-truncation digit string of numeric mode (`result` in the source). -/
def numericSource (o : Oracle) : String :=
  jsStrOfNat o.numericR ++ jsStrOfNat o.timestamp
    ++ jsStrOfNat o.randomNum ++ jsStrOfNat (o.rndByte % 256)

/-- `generate()` with no `length` argument never takes the error branch;
`generateDflt` is its (total) value, used by `testUniqueID`. -/
def generateDflt (pfx : String) (ty : GenType) (o : Oracle) : GenResult :=
  match UniqueID.generate pfx ty o none with
  | .ok r => r
  | .error _ => .str ""

/-- The loop of `testUniqueID`, instrumented with the number of `generate`
calls made: `gen i` is the value returned by the `i`-th call, `seen` is the
`Set` of ids, `fuel` counts the remaining iterations.  Returns the boolean
result of the source loop together with how many ids were generated. -/
def testLoop {α : Type} [DecidableEq α] (gen : Nat → α) :
    List α → Nat → Nat → Bool × Nat
  | _, i, 0 => (true, i)
  | seen, i, fuel + 1 =>
    let id := gen i
    if id ∈ seen then (false, i + 1)
    else testLoop gen (id :: seen) (i + 1) fuel

/-- `UniqueID.testUniqueID`: 100000 calls of `generate()` (no argument), the
`i`-th call drawing its randomness from `os i`; stop with `false` at the first
repeated id. -/
def UniqueID.testUniqueID (pfx : String) (ty : GenType) (os : Nat → Oracle) : Bool :=
  (testLoop (fun i => generateDflt pfx ty (os i)) [] 0 100000).1

/-- The record returned by `checkUniqueIDDuplicates` / `dupilcates`. -/
structure DupReport (α : Type) where
  status : Bool
  cases : List String
  duplicates : List α
deriving DecidableEq

/-- `Array.from(new Set(array))`: deduplication keeping first occurrences in
insertion order. -/
def jsSetArrayFrom {α : Type} [DecidableEq α] (l : List α) : List α :=
  l.foldl (fun acc x => if x ∈ acc then acc else acc ++ [x]) []

/-- `array.indexOf(x)`: index of the first strictly-equal element, `-1` if none. -/
def jsIndexOf {α : Type} [DecidableEq α] : List α → α → Int
  | [], _ => -1
  | a :: l, x =>
    if x = a then 0
    else
      let r := jsIndexOf l x
      if r < 0 then -1 else r + 1

/-- The template literal `Case ${i} and ${index} are duplicates`. -/
def caseNote (i : Nat) (j : Int) : String :=
  "Case " ++ toString i ++ " and " ++ toString j ++ " are duplicates"

/-- The `getCases` loop of `checkUniqueIDDuplicates`: for each index `i`
holding `element`, push a note when `array.indexOf(element) !== i`. -/
def casesOf {α : Type} [DecidableEq α] (l : List α) : List String :=
  l.enum.foldl
    (fun acc p =>
      if jsIndexOf l p.2 ≠ (p.1 : Int) then acc ++ [caseNote p.1 (jsIndexOf l p.2)] else acc)
    []

/-- `array.filter((element, index) => array.indexOf(element) !== index)`,
pushed into `duplicates`. -/
def dupsOf {α : Type} [DecidableEq α] (l : List α) : List α :=
  (l.enum.filter fun p => jsIndexOf l p.2 ≠ (p.1 : Int)).map Prod.snd

/-- `UniqueID.checkUniqueIDDuplicates` (the spec's `findDuplicates`). -/
def UniqueID.checkUniqueIDDuplicates {α : Type} [DecidableEq α]
    (array : List α) (getCases : Bool) : DupReport α :=
  let unique := jsSetArrayFrom array
  let cs := if getCases then casesOf array else []
  let dups := dupsOf array
  if unique.length = array.length then
    { status := true, cases := cs, duplicates := dups }
  else
    { status := false, cases := cs, duplicates := dups }

/-- `UniqueID.dupilcates` (the public wrapper, `getCases = true`). -/
def UniqueID.dupilcates {α : Type} [DecidableEq α] (array : List α) : DupReport α :=
  UniqueID.checkUniqueIDDuplicates array true

/-- Heap-aware version of `indexOf`: reads the array cell and returns the
array unchanged (JS `indexOf` does not write to its receiver). -/
def jsIndexOfSt {α : Type} [DecidableEq α] (arr : List α) (x : α) : Int × List α :=
  (jsIndexOf arr x, arr)

/-- Heap-aware version of `Array.from(new Set(arr))`: builds a fresh array,
leaving the receiver unchanged. -/
def jsSetFromSt {α : Type} [DecidableEq α] (arr : List α) : List α × List α :=
  (jsSetArrayFrom arr, arr)

/-- Heap-aware `getCases` loop: threads the array state through each
`indexOf` read. -/
def casesOfSt {α : Type} [DecidableEq α] (arr : List α) : List String × List α :=
  arr.enum.foldl
    (fun acc p =>
      let r := jsIndexOfSt acc.2 p.2
      if r.1 ≠ (p.1 : Int) then (acc.1 ++ [caseNote p.1 r.1], r.2) else (acc.1, r.2))
    ([], arr)

/-- Heap-aware `filter` pass: `filter` allocates a fresh array and leaves the
receiver unchanged. -/
def dupsOfSt {α : Type} [DecidableEq α] (arr : List α) : List α × List α :=
  ((arr.enum.filter fun p => jsIndexOf arr p.2 ≠ (p.1 : Int)).map Prod.snd, arr)

/-- `checkUniqueIDDuplicates` with the input array modelled as mutable state:
every step returns the (possibly updated) array alongside its result, so the
second component of the result is the array as left behind by the call. -/
def checkStateful {α : Type} [DecidableEq α] (arr : List α) (getCases : Bool) :
    DupReport α × List α :=
  let u := jsSetFromSt arr
  let cs := if getCases then casesOfSt u.2 else ([], u.2)
  let ds := dupsOfSt cs.2
  if u.1.length = ds.2.length then
    ({ status := true, cases := cs.1, duplicates := ds.1 }, ds.2)
  else
    ({ status := false, cases := cs.1, duplicates := ds.1 }, ds.2)

/-- Decimal digit characters (`'0'`–`'9'`), as a predicate on code points. -/
def IsDigitCh (c : Char) : Prop := 48 ≤ c.toNat ∧ c.toNat ≤ 57

instance (c : Char) : Decidable (IsDigitCh c) := by unfold IsDigitCh; infer_instance

/-- A fixed all-zero oracle, used to evaluate the model at concrete inputs. -/
def zeroOracle : Oracle := ⟨0, fun _ => 0, 0, 0, fun _ => 0, 0⟩

/-- `gen` repeats at index `k`: some earlier call returned the same value. -/
def DupAt {α : Type} (gen : Nat → α) (k : Nat) : Prop := ∃ j, j < k ∧ gen j = gen k

/-! ## Lemmas about the string and number primitives -/

lemma strAppend_data (a b : String) : (a ++ b).data = a.data ++ b.data := rfl

lemma strTake_data (s : String) (n : Nat) : (strTake s n).data = s.data.take n := rfl

lemma strTake_length (s : String) (n : Nat) :
    (strTake s n).data.length = min n s.data.length := by
  simp [strTake_data]

lemma digitChar_isDigitCh {n : Nat} (h : n < 10) : IsDigitCh (Nat.digitChar n) := by
  interval_cases n <;> decide

lemma toDigitsCore_digits (fuel : Nat) :
    ∀ (n : Nat) (ds : List Char), (∀ c ∈ ds, IsDigitCh c) →
      ∀ c ∈ Nat.toDigitsCore 10 fuel n ds, IsDigitCh c := by
  induction fuel with
  | zero => intro n ds hds; simpa [Nat.toDigitsCore] using hds
  | succ fuel ih =>
    intro n ds hds c hc
    simp only [Nat.toDigitsCore] at hc
    have hd : IsDigitCh (Nat.digitChar (n % 10)) :=
      digitChar_isDigitCh (Nat.mod_lt _ (by decide))
    have hds' : ∀ c ∈ Nat.digitChar (n % 10) :: ds, IsDigitCh c := by
      intro c hc
      rcases List.mem_cons.1 hc with h | h
      · exact h ▸ hd
      · exact hds c h
    by_cases hz : n / 10 = 0
    · rw [if_pos hz] at hc
      exact hds' c hc
    · rw [if_neg hz] at hc
      exact ih (n / 10) _ hds' c hc

lemma jsStrOfNat_digits (n : Nat) : ∀ c ∈ (jsStrOfNat n).data, IsDigitCh c := by
  intro c hc
  have : (jsStrOfNat n).data = Nat.toDigitsCore 10 (n + 1) n [] := rfl
  rw [this] at hc
  exact toDigitsCore_digits (n + 1) n [] (by simp) c hc

lemma jsNumber_foldl_lt (cs : List Char) :
    ∀ acc : Nat, (∀ c ∈ cs, IsDigitCh c) →
      cs.foldl (fun a c => a * 10 + (c.toNat - 48)) acc < (acc + 1) * 10 ^ cs.length := by
  induction cs with
  | nil => intro acc _; simp [Nat.lt_succ_self]
  | cons c cs ih =>
    intro acc h
    have hc : IsDigitCh c := h c (List.mem_cons_self ..)
    have hd : c.toNat - 48 ≤ 9 := by
      rcases hc with ⟨h1, h2⟩; omega
    have step := ih (acc * 10 + (c.toNat - 48)) (fun c hc => h c (List.mem_cons_of_mem _ hc))
    have hle : (acc * 10 + (c.toNat - 48) + 1) * 10 ^ cs.length
        ≤ (acc + 1) * 10 ^ (cs.length + 1) := by
      have h1 : acc * 10 + (c.toNat - 48) + 1 ≤ (acc + 1) * 10 := by omega
      calc (acc * 10 + (c.toNat - 48) + 1) * 10 ^ cs.length
          ≤ ((acc + 1) * 10) * 10 ^ cs.length := Nat.mul_le_mul_right _ h1
        _ = (acc + 1) * 10 ^ (cs.length + 1) := by ring
    simpa [List.foldl_cons, List.length_cons] using lt_of_lt_of_le step hle

lemma jsNumber_lt (s : String) (h : ∀ c ∈ s.data, IsDigitCh c) :
    jsNumber s < 10 ^ s.data.length := by
  simpa using jsNumber_foldl_lt s.data 0 h

lemma HexRandomBytes16_length (bytes : Nat → Nat) :
    (HexRandomBytes16 bytes).data.length = 32 := by
  show ((List.range 16).flatMap fun i => hexByteChars (bytes i)).length = 32
  rw [List.length_flatMap]
  have : (List.map (List.length ∘ fun i => hexByteChars (bytes i)) (List.range 16))
      = List.map (fun _ => 2) (List.range 16) := by
    apply List.map_congr_left; intro i _; rfl
  rw [this]
  decide

lemma numericSource_digits (o : Oracle) : ∀ c ∈ (numericSource o).data, IsDigitCh c := by
  intro c hc
  simp only [numericSource, strAppend_data, List.mem_append] at hc
  rcases hc with ((h | h) | h) | h <;> exact jsStrOfNat_digits _ c h

lemma textSource_length_ge (pfx : String) (o : Oracle) :
    32 ≤ (textSource pfx o).data.length := by
  have h1 : ("_" : String).data.length = 1 := rfl
  unfold textSource
  split <;>
    simp only [strAppend_data, List.length_append, HexRandomBytes16_length, h1] <;> omega

lemma generate_string_some (pfx : String) (o : Oracle) (n : Int)
    (h0 : n ≠ 0) (h1 : 0 ≤ n) (h2 : n < 4294967296) :
    UniqueID.generate pfx .string o (some n)
      = .ok (.str (strTake (textSource pfx o) n.toNat)) := by
  have hl8 : lengthOrDefault (some n) 8 = n := by simp [lengthOrDefault, h0]
  have hl16 : lengthOrDefault (some n) 16 = n := by simp [lengthOrDefault, h0]
  have ha : jsNewArraySize n = .ok n.toNat := by simp [jsNewArraySize, h1, h2]
  simp only [UniqueID.generate, hl8, hl16, ha, textSource]

lemma generate_number_some (pfx : String) (o : Oracle) (n : Int)
    (h0 : n ≠ 0) (h1 : 0 ≤ n) (h2 : n < 4294967296) :
    UniqueID.generate pfx .number o (some n)
      = .ok (.num (jsNumber (strTake (numericSource o) n.toNat))) := by
  have hl8 : lengthOrDefault (some n) 8 = n := by simp [lengthOrDefault, h0]
  have ha : jsNewArraySize n = .ok n.toNat := by simp [jsNewArraySize, h1, h2]
  simp only [UniqueID.generate, hl8, ha, jsSubstrOpt, numericSource]

/-! ## Claim theorems about `generate` -/

/-- C1 (counterexample): contrary to the claim that `generate` raises no error
for any argument, a negative `length` reaches `new Array(-1)` and throws
`RangeError: Invalid array length`. -/
theorem generate_negative_length_throws :
    UniqueID.generate "" .string zeroOracle (some (-1)) = .error "Invalid array length" := rfl

/-- C1 (amended): `generate` raises no error whenever the `length` argument is
unspecified, zero, or a valid array length (an integer in `[0, 2^32)`); in
particular a zero `length` yields the defaulted/degenerate output rather than
an exception.  (A negative `length` does throw, see the counterexample.) -/
theorem generate_total_on_valid_lengths (pfx : String) (ty : GenType) (o : Oracle)
    (len : Option Int) (h : ∀ n, len = some n → 0 ≤ n ∧ n < 4294967296) :
    ∃ r, UniqueID.generate pfx ty o len = .ok r := by
  cases len with
  | none => cases ty <;> exact ⟨_, rfl⟩
  | some n =>
    obtain ⟨h1, h2⟩ := h n rfl
    have ha : jsNewArraySize (lengthOrDefault (some n) 8) = .ok (lengthOrDefault (some n) 8).toNat := by
      by_cases h0 : n = 0
      · subst h0; rfl
      · simp [lengthOrDefault, jsNewArraySize, h0, h1, h2]
    cases ty <;> simp [UniqueID.generate, ha]

/-- Witness for C1's amended theorem at `length = 3`. -/
theorem generate_total_on_valid_lengths_witness :
    ∃ r, UniqueID.generate "" .string zeroOracle (some 3) = .ok r :=
  generate_total_on_valid_lengths "" .string zeroOracle (some 3)
    (by intro n hn; injection hn with h; subst h; decide)

/-- C2: in text mode with `length = n ≥ 1` (and a valid array length so that
the dead buffer allocation does not throw), `generate` returns exactly the
first `n` characters of the concatenation `textSource` (prefixed variant when
the prefix is non-empty), whose hex part is the 32-character encoding of the
16 secure random bytes; the result has exactly `n` characters, or fewer only
when the pre-truncation source is shorter; with `length` unspecified the
default is 16. -/
theorem generate_text_spec (pfx : String) (o : Oracle) (n : Int)
    (h1 : 1 ≤ n) (h2 : n < 4294967296) :
    UniqueID.generate pfx .string o (some n)
        = .ok (.str (strTake (textSource pfx o) n.toNat))
      ∧ (strTake (textSource pfx o) n.toNat).data.length
        = min n.toNat (textSource pfx o).data.length
      ∧ UniqueID.generate pfx .string o none = .ok (.str (strTake (textSource pfx o) 16))
      ∧ (HexRandomBytes16 o.uuidBytes).data.length = 32 :=
  ⟨generate_string_some pfx o n (by omega) (by omega) h2,
   strTake_length _ _, rfl, HexRandomBytes16_length _⟩

/-- Witness for C2 at `pfx = "p"`, `n = 5`, the all-zero oracle. -/
theorem generate_text_spec_witness :
    UniqueID.generate "p" .string zeroOracle (some 5)
        = .ok (.str (strTake (textSource "p" zeroOracle) 5))
      ∧ (strTake (textSource "p" zeroOracle) 5).data.length
        = min 5 (textSource "p" zeroOracle).data.length
      ∧ UniqueID.generate "p" .string zeroOracle none
        = .ok (.str (strTake (textSource "p" zeroOracle) 16))
      ∧ (HexRandomBytes16 zeroOracle.uuidBytes).data.length = 32 := by
  have h := generate_text_spec "p" zeroOracle 5 (by decide) (by decide)
  simpa using h

/-- C3: in numeric mode with `length = n ≥ 1` (valid array length), `generate`
returns the first `n` characters of the decimal concatenation `numericSource`
parsed as a non-negative integer, which is therefore below `10 ^ n`; with
`length` unspecified no default is applied and the full string is parsed. -/
theorem generate_number_spec (pfx : String) (o : Oracle) (n : Int)
    (h1 : 1 ≤ n) (h2 : n < 4294967296) :
    UniqueID.generate pfx .number o (some n)
        = .ok (.num (jsNumber (strTake (numericSource o) n.toNat)))
      ∧ jsNumber (strTake (numericSource o) n.toNat) < 10 ^ n.toNat
      ∧ UniqueID.generate pfx .number o none = .ok (.num (jsNumber (numericSource o))) := by
  refine ⟨generate_number_some pfx o n (by omega) (by omega) h2, ?_, rfl⟩
  have hd : ∀ c ∈ (strTake (numericSource o) n.toNat).data, IsDigitCh c := by
    intro c hc
    rw [strTake_data] at hc
    exact numericSource_digits o c (List.take_subset _ _ hc)
  calc jsNumber (strTake (numericSource o) n.toNat)
      < 10 ^ (strTake (numericSource o) n.toNat).data.length := jsNumber_lt _ hd
    _ ≤ 10 ^ n.toNat := by
        apply Nat.pow_le_pow_right (by omega)
        rw [strTake_length]
        omega

/-- Witness for C3 at `n = 5`, the all-zero oracle. -/
theorem generate_number_spec_witness :
    UniqueID.generate "" .number zeroOracle (some 5)
        = .ok (.num (jsNumber (strTake (numericSource zeroOracle) 5)))
      ∧ jsNumber (strTake (numericSource zeroOracle) 5) < 10 ^ 5
      ∧ UniqueID.generate "" .number zeroOracle none
        = .ok (.num (jsNumber (numericSource zeroOracle))) := by
  have h := generate_number_spec "" zeroOracle 5 (by decide) (by decide)
  simpa using h

/-- C4 (counterexample): contrary to the claim, a numeric-mode call whose
truncated digit string is empty (`length = 0`) does not fail with an
`InvalidLength` condition: it silently returns the number `0`. -/
theorem generate_number_zero_length_ok :
    UniqueID.generate "" .number zeroOracle (some 0) = .ok (.num 0) := rfl

/-- C4 (amended): in numeric mode, when the truncated digit string is empty
(the caller passes `length = 0`), `generate` silently returns `0`; no error or
`InvalidLength` condition exists in the code. -/
theorem generate_number_empty_truncation_silent_zero (pfx : String) (o : Oracle) :
    UniqueID.generate pfx .number o (some 0) = .ok (.num 0) := rfl

/-- C8: the alphanumeric `val` buffer drawn from the non-secure random source
is dead computation: for every configuration and length, the result of
`generate` is unchanged when the buffer draws are replaced by any other
draws, all other randomness and the timestamp held fixed. -/
theorem generate_ignores_buffer (pfx : String) (ty : GenType) (o : Oracle)
    (b : Nat → Nat) (len : Option Int) :
    UniqueID.generate pfx ty { o with bufDraw := b } len = UniqueID.generate pfx ty o len := by
  cases ty <;> rfl

/-- C10: `length = 0` is falsy, so wherever the code tests `length ? length : d`
a zero length behaves like an unspecified one: the text-mode result equals the
no-argument result (a 16-character string, not an empty one) and the buffer
gets its default size 8; numeric mode, which truncates with `length` directly,
parses the empty truncation and returns the number `0`. -/
theorem generate_zero_length_as_unspecified (pfx : String) (o : Oracle) :
    UniqueID.generate pfx .string o (some 0) = UniqueID.generate pfx .string o none
      ∧ (∃ s, UniqueID.generate pfx .string o (some 0) = .ok (.str s)
          ∧ s.data.length = 16)
      ∧ UniqueID.generate pfx .number o (some 0) = .ok (.num 0)
      ∧ lengthOrDefault (some 0) 8 = lengthOrDefault none 8 := by
  refine ⟨rfl, ⟨strTake (textSource pfx o) 16, rfl, ?_⟩, rfl, rfl⟩
  rw [strTake_length]
  have := textSource_length_ge pfx o
  omega

/-! ## Lemmas about `indexOf` and the duplicate report -/

section Dup

variable {α : Type} [DecidableEq α]

lemma jsIndexOf_cons (a : α) (l : List α) (x : α) :
    jsIndexOf (a :: l) x
      = if x = a then 0 else if jsIndexOf l x < 0 then -1 else jsIndexOf l x + 1 := by
  simp [jsIndexOf]

lemma jsIndexOf_spec (l : List α) (x : α) (h : x ∈ l) :
    0 ≤ jsIndexOf l x
      ∧ l[(jsIndexOf l x).toNat]? = some x
      ∧ ∀ k, k < (jsIndexOf l x).toNat → l[k]? ≠ some x := by
  induction l with
  | nil => cases h
  | cons a l ih =>
    by_cases hx : x = a
    · have h0 : jsIndexOf (a :: l) x = 0 := by rw [jsIndexOf_cons, if_pos hx]
      refine ⟨by omega, ?_, ?_⟩
      · rw [h0]; simp [hx]
      · intro k hk; rw [h0] at hk; omega
    · have hxl : x ∈ l := by
        rcases List.mem_cons.1 h with h' | h'
        · exact absurd h' hx
        · exact h'
      obtain ⟨h0, hget, hmin⟩ := ih hxl
      have heq : jsIndexOf (a :: l) x = jsIndexOf l x + 1 := by
        rw [jsIndexOf_cons, if_neg hx, if_neg (by omega)]
      have ht : (jsIndexOf (a :: l) x).toNat = (jsIndexOf l x).toNat + 1 := by omega
      refine ⟨by omega, ?_, ?_⟩
      · rw [ht]
        simpa using hget
      · intro k hk
        rw [ht] at hk
        cases k with
        | zero =>
          simp only [List.getElem?_cons_zero, ne_eq, Option.some_inj]
          exact fun e => hx e.symm
        | succ k =>
          simpa using hmin k (by omega)

lemma jsIndexOf_toNat_le (l : List α) :
    ∀ (i : Nat) (x : α), l[i]? = some x → (jsIndexOf l x).toNat ≤ i := by
  induction l with
  | nil => intro i x h; simp at h
  | cons a l ih =>
    intro i x h
    by_cases hx : x = a
    · have h0 : jsIndexOf (a :: l) x = 0 := by rw [jsIndexOf_cons, if_pos hx]
      omega
    · cases i with
      | zero =>
        rw [List.getElem?_cons_zero, Option.some_inj] at h
        exact absurd h.symm hx
      | succ i =>
        rw [List.getElem?_cons_succ] at h
        have hxl : x ∈ l := List.getElem?_mem h
        have h0 : 0 ≤ jsIndexOf l x := (jsIndexOf_spec l x hxl).1
        have heq : jsIndexOf (a :: l) x = jsIndexOf l x + 1 := by
          rw [jsIndexOf_cons, if_neg hx, if_neg (by omega)]
        have := ih i x h
        omega

lemma jsIndexOf_ne_iff (l : List α) (i : Nat) (x : α) (h : l[i]? = some x) :
    jsIndexOf l x ≠ (i : Int) ↔ ∃ j, j < i ∧ l[j]? = some x := by
  have hxl : x ∈ l := List.getElem?_mem h
  obtain ⟨h0, hget, hmin⟩ := jsIndexOf_spec l x hxl
  have hle : (jsIndexOf l x).toNat ≤ i := jsIndexOf_toNat_le l i x h
  constructor
  · intro hne
    exact ⟨(jsIndexOf l x).toNat, by omega, hget⟩
  · rintro ⟨j, hj, hjx⟩ heq
    exact hmin j (by omega) hjx

lemma allFirst_iff_nodup (l : List α) :
    (∀ p ∈ l.enum, jsIndexOf l p.2 = (p.1 : Int)) ↔ l.Nodup := by
  constructor
  · intro hall
    rw [List.nodup_iff_getElem?_ne_getElem?]
    intro i j hij hj heq
    have hj' : l[j]? = some l[j] := List.getElem?_eq_getElem hj
    have hi' : l[i]? = some l[j] := heq.trans hj'
    have hmem : (j, l[j]) ∈ l.enum := List.mem_enum_iff_getElem?.2 hj'
    have hj0 := hall (j, l[j]) hmem
    have hle := jsIndexOf_toNat_le l i l[j] hi'
    simp only at hj0
    omega
  · intro hnd p hp
    have h : l[p.1]? = some p.2 := List.mem_enum_iff_getElem?.1 hp
    have hlen : p.1 < l.length := (List.getElem?_eq_some_iff.1 h).1
    have hxl : p.2 ∈ l := List.getElem?_mem h
    obtain ⟨h0, hget, _⟩ := jsIndexOf_spec l p.2 hxl
    have hle := jsIndexOf_toNat_le l p.1 p.2 h
    have heq : (jsIndexOf l p.2).toNat = p.1 := by
      by_contra hne
      have hlt : (jsIndexOf l p.2).toNat < p.1 := by omega
      exact (List.nodup_iff_getElem?_ne_getElem?.1 hnd) _ _ hlt hlen (hget.trans h.symm)
    omega

lemma jsSetFold_length_le (l : List α) :
    ∀ acc : List α,
      (l.foldl (fun acc x => if x ∈ acc then acc else acc ++ [x]) acc).length
        ≤ acc.length + l.length := by
  induction l with
  | nil => intro acc; simp
  | cons x l ih =>
    intro acc
    simp only [List.foldl_cons, List.length_cons]
    by_cases hx : x ∈ acc
    · rw [if_pos hx]
      have := ih acc
      omega
    · rw [if_neg hx]
      have := ih (acc ++ [x])
      simp only [List.length_append, List.length_singleton] at this
      omega

lemma jsSetFold_length_eq_iff (l : List α) :
    ∀ acc : List α,
      (l.foldl (fun acc x => if x ∈ acc then acc else acc ++ [x]) acc).length
          = acc.length + l.length
        ↔ l.Nodup ∧ ∀ x ∈ l, x ∉ acc := by
  induction l with
  | nil => intro acc; simp
  | cons x l ih =>
    intro acc
    simp only [List.foldl_cons, List.length_cons]
    by_cases hx : x ∈ acc
    · rw [if_pos hx]
      have hle := jsSetFold_length_le l acc
      constructor
      · intro h; omega
      · rintro ⟨-, hall⟩
        exact absurd hx (hall x (List.mem_cons_self ..))
    · rw [if_neg hx]
      have base := ih (acc ++ [x])
      simp only [List.length_append, List.length_singleton] at base
      constructor
      · intro h
        obtain ⟨hnd, hall⟩ := base.1 (by omega)
        have hxnl : x ∉ l := by
          intro hmem
          have := hall x hmem
          simp at this
        refine ⟨List.nodup_cons.2 ⟨hxnl, hnd⟩, ?_⟩
        intro y hy
        rcases List.mem_cons.1 hy with rfl | hy'
        · exact hx
        · have := hall y hy'
          simp only [List.mem_append, List.mem_singleton] at this
          exact fun hc => this (Or.inl hc)
      · rintro ⟨hnd, hall⟩
        obtain ⟨hxnl, hnd'⟩ := List.nodup_cons.1 hnd
        have : l.Nodup ∧ ∀ y ∈ l, y ∉ acc ++ [x] := by
          refine ⟨hnd', ?_⟩
          intro y hy
          simp only [List.mem_append, List.mem_singleton]
          rintro (hc | rfl)
          · exact hall y (List.mem_cons_of_mem _ hy) hc
          · exact hxnl hy
        have := base.2 this
        omega

lemma jsSetArrayFrom_length_iff (l : List α) :
    (jsSetArrayFrom l).length = l.length ↔ l.Nodup := by
  have := jsSetFold_length_eq_iff l []
  simpa [jsSetArrayFrom] using this

end Dup

section DupReportLemmas

variable {α : Type} [DecidableEq α]

lemma casesOf_eq_filterMap (l : List α) :
    casesOf l
      = l.enum.filterMap fun p =>
          if jsIndexOf l p.2 = (p.1 : Int) then none
          else some (caseNote p.1 (jsIndexOf l p.2)) := by
  have key : ∀ (ps : List (Nat × α)) (acc : List String),
      ps.foldl
          (fun acc p =>
            if jsIndexOf l p.2 ≠ (p.1 : Int) then acc ++ [caseNote p.1 (jsIndexOf l p.2)]
            else acc)
          acc
        = acc ++ ps.filterMap fun p =>
            if jsIndexOf l p.2 = (p.1 : Int) then none
            else some (caseNote p.1 (jsIndexOf l p.2)) := by
    intro ps
    induction ps with
    | nil => intro acc; simp
    | cons p ps ih =>
      intro acc
      by_cases hp : jsIndexOf l p.2 = (p.1 : Int)
      · simp only [List.foldl_cons]
        rw [if_neg (by simp [hp]), ih]
        simp [List.filterMap_cons, hp]
      · simp only [List.foldl_cons]
        rw [if_pos hp, ih]
        simp [List.filterMap_cons, hp]
  simpa [casesOf] using key l.enum []

lemma dupilcates_duplicates (l : List α) :
    (UniqueID.dupilcates l).duplicates = dupsOf l := by
  unfold UniqueID.dupilcates UniqueID.checkUniqueIDDuplicates
  dsimp only
  split <;> rfl

lemma dupilcates_cases (l : List α) :
    (UniqueID.dupilcates l).cases = casesOf l := by
  unfold UniqueID.dupilcates UniqueID.checkUniqueIDDuplicates
  dsimp only
  split <;> rfl

lemma dupilcates_status_iff_len (l : List α) :
    (UniqueID.dupilcates l).status = true ↔ (jsSetArrayFrom l).length = l.length := by
  unfold UniqueID.dupilcates UniqueID.checkUniqueIDDuplicates
  dsimp only
  split <;> rename_i h <;> simp [h]

lemma dupsOf_eq_nil_iff (l : List α) : dupsOf l = [] ↔ l.Nodup := by
  rw [← allFirst_iff_nodup]
  unfold dupsOf
  rw [List.map_eq_nil_iff, List.filter_eq_nil_iff]
  constructor
  · intro h p hp
    have := h p hp
    simpa using this
  · intro h p hp
    simpa using h p hp

end DupReportLemmas

/-! ## Claim theorems about the duplicate report -/

/-- C5: the report's `status` is `true` exactly when `duplicates` is empty,
where `duplicates` collects every value whose first index of occurrence is
not its own index (equivalently: every occurrence with an earlier equal
element); and `dupilcates []` is the all-clear report. -/
theorem dupilcates_status_spec (α : Type) [DecidableEq α] (l : List α) :
    ((UniqueID.dupilcates l).status = true ↔ (UniqueID.dupilcates l).duplicates = [])
      ∧ (UniqueID.dupilcates l).duplicates
        = (l.enum.filter fun p => decide (∃ j, j < p.1 ∧ l[j]? = some p.2)).map Prod.snd
      ∧ UniqueID.dupilcates ([] : List α) = ⟨true, [], []⟩ := by
  refine ⟨?_, ?_, rfl⟩
  · rw [dupilcates_duplicates, dupilcates_status_iff_len, jsSetArrayFrom_length_iff,
      dupsOf_eq_nil_iff]
  · rw [dupilcates_duplicates]
    unfold dupsOf
    congr 1
    apply List.filter_congr
    intro p hp
    have h : l[p.1]? = some p.2 := List.mem_enum_iff_getElem?.1 hp
    exact decide_eq_decide.2 (jsIndexOf_ne_iff l p.1 p.2 h)

/-- C6: `collisionNotes` records, for every index `i`, the note
`"Case {i} and {j} are duplicates"` exactly when the first index `j` of the
value at `i` (which `indexOf` computes: a valid, minimal, earlier-or-equal
occurrence) differs from `i`; on `["a","b","a"]` this yields
`duplicateValues = ["a"]` and the single note relating indices 2 and 0. -/
theorem dupilcates_cases_spec (α : Type) [DecidableEq α] (l : List α) :
    ((UniqueID.dupilcates l).cases
        = l.enum.filterMap fun p =>
            if jsIndexOf l p.2 = (p.1 : Int) then none
            else some (caseNote p.1 (jsIndexOf l p.2)))
      ∧ (∀ (i : Nat) (x : α), l[i]? = some x →
          0 ≤ jsIndexOf l x ∧ (jsIndexOf l x).toNat ≤ i
            ∧ l[(jsIndexOf l x).toNat]? = some x
            ∧ ∀ k, k < (jsIndexOf l x).toNat → l[k]? ≠ some x)
      ∧ (UniqueID.dupilcates ["a", "b", "a"]).duplicates = ["a"]
      ∧ (UniqueID.dupilcates ["a", "b", "a"]).cases = ["Case 2 and 0 are duplicates"] := by
  refine ⟨?_, ?_, by decide, by decide⟩
  · rw [dupilcates_cases]
    exact casesOf_eq_filterMap l
  · intro i x h
    obtain ⟨h0, hget, hmin⟩ := jsIndexOf_spec l x (List.getElem?_mem h)
    exact ⟨h0, jsIndexOf_toNat_le l i x h, hget, hmin⟩

/-- Witness for C6 at `l = ["a","b","a"]`, `i = 2`, `x = "a"`. -/
theorem dupilcates_cases_spec_witness :
    0 ≤ jsIndexOf ["a", "b", "a"] "a"
      ∧ (jsIndexOf ["a", "b", "a"] "a").toNat ≤ 2
      ∧ ["a", "b", "a"][(jsIndexOf ["a", "b", "a"] "a").toNat]? = some "a"
      ∧ ∀ k, k < (jsIndexOf ["a", "b", "a"] "a").toNat → ["a", "b", "a"][k]? ≠ some "a" :=
  (dupilcates_cases_spec String ["a", "b", "a"]).2.1 2 "a" rfl

lemma casesOfSt_eq {α : Type} [DecidableEq α] (arr : List α) :
    casesOfSt arr = (casesOf arr, arr) := by
  have key : ∀ (ps : List (Nat × α)) (acc : List String),
      ps.foldl
          (fun acc p =>
            let r := jsIndexOfSt acc.2 p.2
            if r.1 ≠ (p.1 : Int) then (acc.1 ++ [caseNote p.1 r.1], r.2) else (acc.1, r.2))
          (acc, arr)
        = (ps.foldl
            (fun acc p =>
              if jsIndexOf arr p.2 ≠ (p.1 : Int) then acc ++ [caseNote p.1 (jsIndexOf arr p.2)]
              else acc)
            acc, arr) := by
    intro ps
    induction ps with
    | nil => intro acc; rfl
    | cons p ps ih =>
      intro acc
      simp only [List.foldl_cons, jsIndexOfSt]
      by_cases hp : jsIndexOf arr p.2 ≠ (p.1 : Int)
      · rw [if_pos hp, if_pos hp]
        exact ih (acc ++ [caseNote p.1 (jsIndexOf arr p.2)])
      · rw [if_neg hp, if_neg hp]
        exact ih acc
  simpa [casesOfSt, casesOf] using key arr.enum []

lemma checkStateful_eq {α : Type} [DecidableEq α] (arr : List α) (g : Bool) :
    checkStateful arr g = (UniqueID.checkUniqueIDDuplicates arr g, arr) := by
  cases g <;>
    · unfold checkStateful UniqueID.checkUniqueIDDuplicates
      simp only [casesOfSt_eq, jsSetFromSt, dupsOfSt, Bool.false_eq_true, if_false, if_true]
      split <;> rfl

/-- C9: `findDuplicates` is pure: modelled with the input array as threaded
state, the call leaves the array exactly as it was (element-wise unchanged)
while computing the same report as the functional model, and two calls on
equal inputs return equal reports. -/
theorem findDuplicates_pure (α : Type) [DecidableEq α] (l : List α) (g : Bool) :
    (checkStateful l g).2 = l
      ∧ (checkStateful l g).1 = UniqueID.checkUniqueIDDuplicates l g
      ∧ ∀ l' : List α, l = l' → UniqueID.dupilcates l = UniqueID.dupilcates l' := by
  refine ⟨?_, ?_, ?_⟩
  · rw [checkStateful_eq]
  · rw [checkStateful_eq]
  · intro l' h
    rw [h]

/-- Witness for C9 at `l = ["x","y"]`, `getCases = true`. -/
theorem findDuplicates_pure_witness :
    (checkStateful ["x", "y"] true).2 = ["x", "y"]
      ∧ (checkStateful ["x", "y"] true).1 = UniqueID.checkUniqueIDDuplicates ["x", "y"] true
      ∧ UniqueID.dupilcates ["x", "y"] = UniqueID.dupilcates ["x", "y"] :=
  ⟨(findDuplicates_pure String ["x", "y"] true).1,
   (findDuplicates_pure String ["x", "y"] true).2.1,
   (findDuplicates_pure String ["x", "y"] true).2.2 ["x", "y"] rfl⟩

/-! ## Lemmas about `testUniqueID` -/

lemma testLoop_spec {α : Type} [DecidableEq α] (gen : Nat → α) :
    ∀ (fuel i : Nat) (seen : List α),
      (∀ x, x ∈ seen ↔ ∃ j, j < i ∧ gen j = x) →
      (((testLoop gen seen i fuel).1 = true ↔
          ∀ k, i ≤ k → k < i + fuel → ¬ DupAt gen k)
        ∧ ((testLoop gen seen i fuel).1 = true → (testLoop gen seen i fuel).2 = i + fuel)
        ∧ ((testLoop gen seen i fuel).1 = false →
            ∃ k, i ≤ k ∧ k < i + fuel ∧ (testLoop gen seen i fuel).2 = k + 1 ∧ DupAt gen k
              ∧ ∀ m, i ≤ m → m < k → ¬ DupAt gen m)) := by
  intro fuel
  induction fuel with
  | zero =>
    intro i seen hseen
    refine ⟨?_, fun _ => rfl, ?_⟩
    · simp only [testLoop]
      constructor
      · intro _ k hk1 hk2
        omega
      · intro _
        trivial
    · intro h
      simp only [testLoop] at h
      exact Bool.noConfusion h
  | succ fuel ih =>
    intro i seen hseen
    by_cases hmem : gen i ∈ seen
    · have hres : testLoop gen seen i (fuel + 1) = (false, i + 1) := by
        simp only [testLoop, if_pos hmem]
      have hdup : DupAt gen i := by
        obtain ⟨j, hj, hje⟩ := (hseen (gen i)).1 hmem
        exact ⟨j, hj, hje⟩
      refine ⟨?_, ?_, ?_⟩
      · rw [hres]
        simp only [Bool.false_eq_true, false_iff]
        intro hall
        exact hall i (le_refl i) (by omega) hdup
      · rw [hres]
        simp
      · intro _
        rw [hres]
        exact ⟨i, le_refl i, by omega, rfl, hdup, fun m hm1 hm2 => by omega⟩
    · have hres : testLoop gen seen i (fuel + 1) = testLoop gen (gen i :: seen) (i + 1) fuel := by
        simp only [testLoop, if_neg hmem]
      have hni : ¬ DupAt gen i := by
        rintro ⟨j, hj, hje⟩
        exact hmem ((hseen (gen i)).2 ⟨j, hj, hje⟩)
      have hseen' : ∀ x, x ∈ gen i :: seen ↔ ∃ j, j < i + 1 ∧ gen j = x := by
        intro x
        rw [List.mem_cons, hseen x]
        constructor
        · rintro (rfl | ⟨j, hj, hje⟩)
          · exact ⟨i, by omega, rfl⟩
          · exact ⟨j, by omega, hje⟩
        · rintro ⟨j, hj, hje⟩
          by_cases hij : j = i
          · subst hij
            exact Or.inl hje.symm
          · exact Or.inr ⟨j, by omega, hje⟩
      obtain ⟨ih1, ih2, ih3⟩ := ih (i + 1) (gen i :: seen) hseen'
      refine ⟨?_, ?_, ?_⟩
      · rw [hres, ih1]
        constructor
        · intro hall k hk1 hk2
          by_cases hk : k = i
          · exact hk ▸ hni
          · exact hall k (by omega) (by omega)
        · intro hall k hk1 hk2
          exact hall k (by omega) (by omega)
      · intro ht
        rw [hres] at ht ⊢
        rw [ih2 ht]
        omega
      · intro hf
        rw [hres] at hf ⊢
        obtain ⟨k, hk1, hk2, hk3, hk4, hk5⟩ := ih3 hf
        refine ⟨k, by omega, by omega, hk3, hk4, ?_⟩
        intro m hm1 hm2
        by_cases hmi : m = i
        · exact hmi ▸ hni
        · exact hk5 m (by omega) hm2

/-- C7: `testUniqueID` draws 100000 ids from `generate()` (no argument — the
default parameters; the last conjunct checks this call never errors), keeping
the previously seen values in a set: it returns `true` iff all 100000 values
are pairwise distinct, in which case all 100000 calls were made, and it
returns `false` immediately upon the first repeated value — the loop stops
after `i + 1` calls where `i` is the first index whose value already
occurred. -/
theorem testUniqueID_spec (pfx : String) (ty : GenType) (os : Nat → Oracle) :
    (UniqueID.testUniqueID pfx ty os = true ↔
        ∀ i j, i < 100000 → j < i → generateDflt pfx ty (os j) ≠ generateDflt pfx ty (os i))
      ∧ (UniqueID.testUniqueID pfx ty os = true →
          (testLoop (fun i => generateDflt pfx ty (os i)) [] 0 100000).2 = 100000)
      ∧ (UniqueID.testUniqueID pfx ty os = false →
          ∃ i, i < 100000
            ∧ (testLoop (fun i => generateDflt pfx ty (os i)) [] 0 100000).2 = i + 1
            ∧ DupAt (fun k => generateDflt pfx ty (os k)) i
            ∧ ∀ m, m < i → ¬ DupAt (fun k => generateDflt pfx ty (os k)) m)
      ∧ ∀ o : Oracle, UniqueID.generate pfx ty o none = .ok (generateDflt pfx ty o) := by
  obtain ⟨h1, h2, h3⟩ :=
    testLoop_spec (fun i => generateDflt pfx ty (os i)) 100000 0 [] (by intro x; simp)
  refine ⟨?_, by simpa using h2, ?_, ?_⟩
  · unfold UniqueID.testUniqueID
    rw [h1]
    constructor
    · intro hall i j hi hj he
      exact hall i (by omega) (by omega) ⟨j, hj, he⟩
    · intro hall k _ hk hdup
      obtain ⟨j, hj, hje⟩ := hdup
      exact hall k j (by omega) hj hje
  · intro hf
    obtain ⟨k, _, hk2, hk3, hk4, hk5⟩ := h3 hf
    exact ⟨k, by omega, hk3, hk4, fun m hm => hk5 m (by omega) hm⟩
  · intro o
    cases ty <;> rfl

/-- Witness for C7: with a constant oracle stream every call returns the same
id, so the loop stops with `false` after exactly two `generate` calls. -/
theorem testUniqueID_spec_witness :
    ∃ i, i < 100000
      ∧ (testLoop (fun _ => generateDflt "" .string zeroOracle) [] 0 100000).2 = i + 1
      ∧ DupAt (fun _ => generateDflt "" .string zeroOracle) i
      ∧ ∀ m, m < i → ¬ DupAt (fun _ => generateDflt "" .string zeroOracle) m :=
  (testUniqueID_spec "" .string (fun _ => zeroOracle)).2.2.1 rfl
